import Mathlib

/-!
Verification of the random desk assigner (`dskrnd.py`).

The program keeps a global list `database` of JSON-style records, each a
dictionary with a `user_name` string and a `desk_number` integer, and drives
a curses menu with two mutating flows (`assign_desk`, `clear_desk`) plus
persistence through a JSON file.  This file is a shallow embedding of that
code: the list of records becomes a Lean `List Record`, the interactive
flows become functions from the list of entered input strings to the final
store plus the list of messages shown with `wait_for_key`, and the single
call to `random.choice(free_desks)` becomes an arbitrary element of the
computed `free_desks` list.
-/

namespace Dskrnd

set_option maxRecDepth 4096

/-- One record of the `database` list: Python dict
`{"user_name": user_name, "desk_number": desk_number}`.  Equality of records
is field-wise, matching Python dict equality (used by `list.index`). -/
structure Record where
  user_name : String
  desk_number : Int
deriving DecidableEq, Repr

/-- `DESK_POOL = 50`. -/
def DESK_POOL : Nat := 50

/-- `get_assigned_desk_numbers`: the `desk_number` field of every record, in
store order (the source builds this list with a `for` loop and `append`). -/
def get_assigned_desk_numbers (db : List Record) : List Int :=
  db.map (fun record => record.desk_number)

/-- `get_assigned_user_names`: the `user_name` field of every record, in
store order. -/
def get_assigned_user_names (db : List Record) : List String :=
  db.map (fun record => record.user_name)

/-- `get_user_name`: scan the store front to back, return the `user_name` of
the first record whose `desk_number` matches, else `""`. -/
def get_user_name (db : List Record) (desk_number : Int) : String :=
  match db with
  | [] => ""
  | record :: rest =>
    if record.desk_number = desk_number then record.user_name
    else get_user_name rest desk_number

/-- `get_desk_number`: scan the store front to back, return the
`desk_number` of the first record whose `user_name` matches, else `0`. -/
def get_desk_number (db : List Record) (user_name : String) : Int :=
  match db with
  | [] => 0
  | record :: rest =>
    if record.user_name = user_name then record.desk_number
    else get_desk_number rest user_name

/-- `add_desk_assignment`: append the new record at the end of the list. -/
def add_desk_assignment (db : List Record) (desk_number : Int)
    (user_name : String) : List Record :=
  db ++ [{ user_name := user_name, desk_number := desk_number }]

/-- The loop body of `clear_desk_assignment`, modelling CPython semantics of
`for record in database: if record["desk_number"] == n:
del database[database.index(record)]` exactly.  The list iterator keeps a
position `k`: it yields `db[k]` and moves to `k + 1` regardless of mutation,
so a `del` at an index `≤ k` (which is where `database.index` always lands,
since the yielded record itself sits at `k`) shifts the remaining elements
left and makes the iterator skip the element that followed the match.
`fuel` bounds the iteration count; it starts at the initial list length,
which suffices because each step increments `k` while the length never
grows. -/
def clear_desk_assignment_loop (desk_number : Int) :
    Nat → List Record → Nat → List Record
  | 0, db, _ => db
  | fuel + 1, db, k =>
    if h : k < db.length then
      if db[k].desk_number = desk_number then
        clear_desk_assignment_loop desk_number fuel
          (db.eraseIdx (List.indexOf db[k] db)) (k + 1)
      else
        clear_desk_assignment_loop desk_number fuel db (k + 1)
    else db

/-- `clear_desk_assignment`: delete the record(s) of a given desk number by
iterating over the list while deleting from it (see
`clear_desk_assignment_loop` for the iterator semantics). -/
def clear_desk_assignment (db : List Record) (desk_number : Int) :
    List Record :=
  clear_desk_assignment_loop desk_number db.length db 0

/-- `all_desks = set(range(1, DESK_POOL + 1))`, as the list `[1, …, 50]`
(the claims about selection are order-insensitive, so the arbitrary set
order of Python is represented by a canonical enumeration). -/
def all_desks : List Int :=
  (List.range DESK_POOL).map (fun i => (i : Int) + 1)

/-- `free_desks = list(all_desks - assigned_desks)`: the desks of the pool
not currently assigned.  `random.choice` then picks an arbitrary element of
this list. -/
def free_desks (db : List Record) : List Int :=
  all_desks.filter (fun d => decide (d ∉ get_assigned_desk_numbers db))

/-- The messages shown with `wait_for_key` by the two mutating flows, with
the data interpolated into the corresponding Python f-string as arguments:
`noFreeDesk` is the message shown when the pool is full, `duplicateUser`
names the user and the desk reported by `get_desk_number`, `assigned` names
the user and the chosen desk, `notAssigned` and `cleared` name the desk. -/
inductive Msg where
  | noFreeDesk
  | nameTooShort
  | nameTooLong
  | duplicateUser (user_name : String) (desk_number : Int)
  | assigned (user_name : String) (desk_number : Int)
  | noDesksAssigned
  | deskRange
  | notAssigned (desk_number : Int)
  | cleared (desk_number : Int)
deriving DecidableEq, Repr

/-- The `while True` loop of `assign_desk`.  `inputs` is the sequence of
strings the user enters at the name prompt (an exhausted sequence means the
user never advances the blocked prompt, so the store is final); `pick`
stands for `random.choice`, applied to the computed `free_desks` list.
Returns the final store and the messages shown. -/
def assign_loop (pick : List Int → Int) (db : List Record) :
    List String → List Record × List Msg
  | [] => (db, [])
  | user_name :: rest =>
    if user_name.length = 0 then
      (db, [])
    else if user_name.length < 2 then
      let p := assign_loop pick db rest
      (p.1, Msg.nameTooShort :: p.2)
    else if 17 < user_name.length then
      let p := assign_loop pick db rest
      (p.1, Msg.nameTooLong :: p.2)
    else if user_name ∈ get_assigned_user_names db then
      let p := assign_loop pick db rest
      (p.1, Msg.duplicateUser user_name (get_desk_number db user_name) :: p.2)
    else
      let desk_number := pick (free_desks db)
      (add_desk_assignment db desk_number user_name,
        [Msg.assigned user_name desk_number])

/-- `assign_desk`: reject immediately when the store already holds
`DESK_POOL` records, otherwise run the prompt loop. -/
def assign_desk (pick : List Int → Int) (db : List Record)
    (inputs : List String) : List Record × List Msg :=
  if DESK_POOL ≤ (get_assigned_desk_numbers db).length then
    (db, [Msg.noFreeDesk])
  else
    assign_loop pick db inputs

/-- The `while True` loop of `clear_desk`.  `inputs` is the sequence of
strings entered at the desk-number prompt.  `String.toNat?` models the
`isdigit` check followed by `int(...)` (digits meaning ASCII digits). -/
def clear_loop (db : List Record) : List String → List Record × List Msg
  | [] => (db, [])
  | input :: rest =>
    if input.length = 0 then
      (db, [])
    else
      match input.toNat? with
      | none =>
        let p := clear_loop db rest
        (p.1, Msg.deskRange :: p.2)
      | some n =>
        if ¬(1 ≤ n ∧ n ≤ DESK_POOL) then
          let p := clear_loop db rest
          (p.1, Msg.deskRange :: p.2)
        else if (n : Int) ∉ get_assigned_desk_numbers db then
          let p := clear_loop db rest
          (p.1, Msg.notAssigned (n : Int) :: p.2)
        else
          (clear_desk_assignment db (n : Int), [Msg.cleared (n : Int)])

/-- `clear_desk`: reject immediately when no records exist, otherwise run
the prompt loop. -/
def clear_desk (db : List Record) (inputs : List String) :
    List Record × List Msg :=
  if (get_assigned_desk_numbers db).length = 0 then
    (db, [Msg.noDesksAssigned])
  else
    clear_loop db inputs

/-- A JSON document, as far as this program is concerned: the values
produced by `json.load` / consumed by `json.dump` for a list of records. -/
inductive Json where
  | str (s : String)
  | num (n : Int)
  | arr (items : List Json)
  | obj (fields : List (String × Json))

/-- First value stored under a key in a JSON object, modelling Python dict
field access `record["key"]`. -/
def json_lookup (key : String) : List (String × Json) → Option Json
  | [] => none
  | (k, v) :: rest => if k = key then some v else json_lookup key rest

/-- The JSON object `json.dump` writes for one record (the dict built by
`add_desk_assignment`). -/
def encode_record (record : Record) : Json :=
  Json.obj [("user_name", Json.str record.user_name),
    ("desk_number", Json.num record.desk_number)]

/-- `write_database_file`: the document serialized to `dskrnd.json`, a JSON
array of two-field objects (the textual rendering with `indent=4` is
abstracted away; `json.dump` followed by `json.load` is the identity on
such documents). -/
def write_database_file (db : List Record) : Json :=
  Json.arr (db.map encode_record)

/-- View a parsed JSON value as one record, i.e. the two field accesses
`record["user_name"]` and `record["desk_number"]` the program performs. -/
def decode_record : Json → Option Record
  | Json.obj fields =>
    match json_lookup "user_name" fields, json_lookup "desk_number" fields with
    | some (Json.str s), some (Json.num n) =>
      some { user_name := s, desk_number := n }
    | _, _ => none
  | _ => none

/-- View a list of parsed JSON values as records, element-wise. -/
def decode_records : List Json → Option (List Record)
  | [] => some []
  | j :: rest =>
    match decode_record j, decode_records rest with
    | some record, some records => some (record :: records)
    | _, _ => none

/-- View a parsed JSON document as the record list it denotes. -/
def parse_database : Json → Option (List Record)
  | Json.arr items => decode_records items
  | _ => none

/-- The possible outcomes of opening and parsing `dskrnd.json`: an `IOError`
(missing or unreadable file), a `json.decoder.JSONDecodeError` (malformed
document), or a successfully parsed document. -/
inductive FileReadResult where
  | ioError
  | malformed
  | ok (doc : Json)

/-- `read_database_file`: on either caught exception return `False` and
leave `database` untouched (the program only calls this at startup, when
`database` is the empty list); on success return `True` with `database` set
to the parsed document, viewed through `parse_database` (a document that is
not a list of two-field records puts the program outside its data model —
later field accesses raise — and never arises from files this program
writes). -/
def read_database_file (db : List Record) :
    FileReadResult → Bool × List Record
  | FileReadResult.ioError => (false, db)
  | FileReadResult.malformed => (false, db)
  | FileReadResult.ok doc => (true, (parse_database doc).getD db)

/-- The data-model invariant of the spec: desk numbers unique, user names
unique, at most `DESK_POOL` records. -/
def Inv (db : List Record) : Prop :=
  (get_assigned_desk_numbers db).Nodup ∧
    (get_assigned_user_names db).Nodup ∧ db.length ≤ DESK_POOL

/-! ### Lookup lemmas -/

lemma get_user_name_append_not_mem (db : List Record) (n : Int)
    (user_name : String) (hd : n ∉ get_assigned_desk_numbers db) :
    get_user_name (db ++ [{ user_name := user_name, desk_number := n }]) n =
      user_name := by
  induction db with
  | nil => simp [get_user_name]
  | cons record rest ih =>
    simp only [get_assigned_desk_numbers, List.map_cons, List.mem_cons,
      not_or] at hd
    rw [List.cons_append, get_user_name, if_neg (fun h => hd.1 h.symm)]
    exact ih hd.2

lemma get_desk_number_append_not_mem (db : List Record) (n : Int)
    (user_name : String) (hu : user_name ∉ get_assigned_user_names db) :
    get_desk_number (db ++ [{ user_name := user_name, desk_number := n }])
      user_name = n := by
  induction db with
  | nil => simp [get_desk_number]
  | cons record rest ih =>
    simp only [get_assigned_user_names, List.map_cons, List.mem_cons,
      not_or] at hu
    rw [List.cons_append, get_desk_number, if_neg (fun h => hu.1 h.symm)]
    exact ih hu.2

/-! ### Claim C10 -/

/-- C10: for every store, even one violating the uniqueness invariant,
`get_user_name` returns the `user_name` of the earliest record whose
`desk_number` matches (`""` if none), and `get_desk_number` returns the
`desk_number` of the earliest record whose `user_name` matches (`0` if
none). -/
theorem find_first_match (db : List Record) (n : Int) (user_name : String) :
    get_user_name db n =
      ((db.find? (fun r => r.desk_number == n)).map Record.user_name).getD
        "" ∧
    get_desk_number db user_name =
      ((db.find? (fun r => r.user_name == user_name)).map
        Record.desk_number).getD 0 := by
  induction db with
  | nil => simp [get_user_name, get_desk_number]
  | cons record rest ih =>
    constructor
    · by_cases h : record.desk_number = n
      · rw [get_user_name, if_pos h, List.find?_cons_of_pos _ (by simp [h])]
        simp
      · rw [get_user_name, if_neg h, List.find?_cons_of_neg _ (by simp [h])]
        exact ih.1
    · by_cases h : record.user_name = user_name
      · rw [get_desk_number, if_pos h, List.find?_cons_of_pos _ (by simp [h])]
        simp
      · rw [get_desk_number, if_neg h, List.find?_cons_of_neg _ (by simp [h])]
        exact ih.2

/-! ### Claim C1 -/

/-- C1 as stated is false: `add_desk_assignment` appends at the end while
the lookups return the earliest match, so on a store that already assigns
desk 1, adding desk 1 for a new user leaves `get_user_name 1` answering the
old user. -/
theorem add_lookup_cex :
    ¬(get_user_name
        (add_desk_assignment [{ user_name := "AB", desk_number := 1 }] 1
          "CD") 1 = "CD" ∧
      get_desk_number
        (add_desk_assignment [{ user_name := "AB", desk_number := 1 }] 1
          "CD") "CD" = 1) := by
  decide

/-- C1 amended: for every desk number `n` in `1..50` and user name, if `n`
is not already assigned and the name is not already present in the store,
then after `add_desk_assignment db n name`, `get_user_name n` returns the
name and `get_desk_number name` returns `n`. -/
theorem add_lookup (db : List Record) (n : Int) (user_name : String)
    (h1 : 1 ≤ n) (h50 : n ≤ 50)
    (hd : n ∉ get_assigned_desk_numbers db)
    (hu : user_name ∉ get_assigned_user_names db) :
    get_user_name (add_desk_assignment db n user_name) n = user_name ∧
    get_desk_number (add_desk_assignment db n user_name) user_name = n :=
  ⟨get_user_name_append_not_mem db n user_name hd,
    get_desk_number_append_not_mem db n user_name hu⟩

theorem add_lookup_witness :
    ((1 : Int) ≤ 2 ∧ (2 : Int) ≤ 50 ∧
      (2 : Int) ∉ get_assigned_desk_numbers
        [{ user_name := "AB", desk_number := 1 }] ∧
      "CD" ∉ get_assigned_user_names
        [{ user_name := "AB", desk_number := 1 }]) ∧
    (get_user_name
        (add_desk_assignment [{ user_name := "AB", desk_number := 1 }] 2
          "CD") 2 = "CD" ∧
      get_desk_number
        (add_desk_assignment [{ user_name := "AB", desk_number := 1 }] 2
          "CD") "CD" = 2) :=
  ⟨by decide,
    add_lookup [{ user_name := "AB", desk_number := 1 }] 2 "CD" (by decide)
      (by decide) (by decide) (by decide)⟩

/-! ### Claim C4 -/

/-- C4: when the store already holds `DESK_POOL` (or more) records, the
assign flow shows the no-free-desk message and returns at once, leaving the
store unchanged, whatever the user would have typed. -/
theorem assign_full_rejected (pick : List Int → Int) (db : List Record)
    (inputs : List String)
    (h : DESK_POOL ≤ (get_assigned_desk_numbers db).length) :
    assign_desk pick db inputs = (db, [Msg.noFreeDesk]) := by
  simp [assign_desk, h]

theorem assign_full_rejected_witness :
    DESK_POOL ≤
      (get_assigned_desk_numbers
        (List.replicate 50 { user_name := "AB", desk_number := 1 })).length ∧
    assign_desk (fun l => l.headD 0)
        (List.replicate 50 { user_name := "AB", desk_number := 1 })
        ["CDE"] =
      (List.replicate 50 { user_name := "AB", desk_number := 1 },
        [Msg.noFreeDesk]) :=
  ⟨by decide,
    assign_full_rejected (fun l => l.headD 0)
      (List.replicate 50 { user_name := "AB", desk_number := 1 }) ["CDE"]
      (by decide)⟩

/-! ### The delete-while-iterating loop of clear_desk_assignment -/

lemma clear_loop_no_match (n : Int) :
    ∀ (fuel : Nat) (db : List Record) (k : Nat),
      (∀ r ∈ db, r.desk_number ≠ n) →
      clear_desk_assignment_loop n fuel db k = db := by
  intro fuel
  induction fuel with
  | zero => intro db k _; rfl
  | succ fuel ih =>
    intro db k h
    simp only [clear_desk_assignment_loop]
    split
    · rename_i hk
      rw [if_neg (h _ (List.getElem_mem hk))]
      exact ih db (k + 1) h
    · rfl

lemma clear_loop_shift (n : Int) (a : Record) (ha : a.desk_number ≠ n) :
    ∀ (fuel : Nat) (db : List Record) (k : Nat),
      clear_desk_assignment_loop n fuel (a :: db) (k + 1) =
        a :: clear_desk_assignment_loop n fuel db k := by
  intro fuel
  induction fuel with
  | zero => intro db k; rfl
  | succ fuel ih =>
    intro db k
    by_cases hk : k < db.length
    · have hk1 : k + 1 < (a :: db).length := by
        simp only [List.length_cons]
        omega
      simp only [clear_desk_assignment_loop]
      rw [dif_pos hk1, dif_pos hk]
      simp only [List.getElem_cons_succ]
      by_cases hm : db[k].desk_number = n
      · rw [if_pos hm, if_pos hm]
        have hne : a ≠ db[k] := fun he => ha (by rw [he]; exact hm)
        rw [List.indexOf_cons_ne _ hne, Nat.succ_eq_add_one,
          List.eraseIdx_cons_succ]
        exact ih _ (k + 1)
      · rw [if_neg hm, if_neg hm]
        exact ih db (k + 1)
    · have hk1 : ¬ k + 1 < (a :: db).length := by
        simp only [List.length_cons]
        omega
      simp only [clear_desk_assignment_loop]
      rw [dif_neg hk1, dif_neg hk]

lemma clear_loop_sublist (n : Int) :
    ∀ (fuel : Nat) (db : List Record) (k : Nat),
      List.Sublist (clear_desk_assignment_loop n fuel db k) db := by
  intro fuel
  induction fuel with
  | zero => intro db k; exact List.Sublist.refl db
  | succ fuel ih =>
    intro db k
    simp only [clear_desk_assignment_loop]
    split
    · split
      · exact (ih _ _).trans (List.eraseIdx_sublist _ _)
      · exact ih _ _
    · exact List.Sublist.refl db

lemma clear_desk_assignment_sublist (db : List Record) (n : Int) :
    List.Sublist (clear_desk_assignment db n) db :=
  clear_loop_sublist n db.length db 0

/-- Under the uniqueness invariant there is at most one matching record, so
the delete-while-iterating loop behaves as intended: it removes exactly the
records of the given desk number, keeping everything else in order. -/
lemma clear_desk_assignment_eq_filter (db : List Record) (n : Int)
    (h : (get_assigned_desk_numbers db).Nodup) :
    clear_desk_assignment db n =
      db.filter (fun r => decide (r.desk_number ≠ n)) := by
  induction db with
  | nil => rfl
  | cons a rest ih =>
    simp only [get_assigned_desk_numbers, List.map_cons, List.nodup_cons]
      at h
    by_cases hm : a.desk_number = n
    · have hnom : ∀ r ∈ rest, r.desk_number ≠ n := by
        intro r hr he
        exact h.1 (by rw [hm, ← he]; exact List.mem_map_of_mem _ hr)
      simp only [clear_desk_assignment, List.length_cons,
        clear_desk_assignment_loop]
      rw [dif_pos (Nat.succ_pos rest.length)]
      simp only [List.getElem_cons_zero]
      rw [if_pos hm, List.indexOf_cons_self, List.eraseIdx_cons_zero]
      rw [clear_loop_no_match n rest.length rest 1 hnom]
      rw [List.filter_cons_of_neg (by simp [hm])]
      exact (List.filter_eq_self.mpr (fun r hr => by
        simpa using hnom r hr)).symm
    · simp only [clear_desk_assignment, List.length_cons,
        clear_desk_assignment_loop]
      rw [dif_pos (Nat.succ_pos rest.length)]
      simp only [List.getElem_cons_zero]
      rw [if_neg hm]
      refine (clear_loop_shift n a hm rest.length rest 0).trans ?_
      show a :: clear_desk_assignment rest n = _
      rw [ih h.2, List.filter_cons_of_pos (by simp [hm])]

/-- When the desk number being cleared occurs nowhere in `db`, clearing it
from `db ++ [record]` deletes exactly the appended record. -/
lemma clear_add_of_not_assigned (db : List Record) (n : Int)
    (user_name : String) (h : n ∉ get_assigned_desk_numbers db) :
    clear_desk_assignment (add_desk_assignment db n user_name) n = db := by
  induction db with
  | nil =>
    simp only [add_desk_assignment, List.nil_append, clear_desk_assignment,
      List.length_cons, List.length_nil, clear_desk_assignment_loop]
    rw [dif_pos (by simp)]
    simp only [List.getElem_cons_zero]
    rw [if_pos trivial, List.indexOf_cons_self, List.eraseIdx_cons_zero]
  | cons a rest ih =>
    simp only [get_assigned_desk_numbers, List.map_cons, List.mem_cons,
      not_or] at h
    have ha : a.desk_number ≠ n := fun he => h.1 he.symm
    simp only [add_desk_assignment, List.cons_append, clear_desk_assignment,
      List.length_cons, clear_desk_assignment_loop]
    rw [dif_pos (Nat.succ_pos _)]
    simp only [List.getElem_cons_zero]
    rw [if_neg ha]
    refine (clear_loop_shift n a ha _ _ 0).trans ?_
    show a :: clear_desk_assignment (add_desk_assignment rest n user_name)
      n = _
    rw [ih h.2]

/-! ### Claim C2 -/

/-- C2 as stated is false.  On a store that already assigns the desk, the
Python loop `for record in database: del database[database.index(record)]`
first deletes the old record, which makes the list iterator skip past the
newly appended one — and then deletes that one too on a later iteration or
leaves it, but never restores the original list.  Concretely, starting from
the one-record store `AB ↦ 1`, `add 1 CD` then `clear 1` ends with the
store `CD ↦ 1`, not the prior store. -/
theorem add_clear_roundtrip_cex :
    clear_desk_assignment
        (add_desk_assignment [{ user_name := "AB", desk_number := 1 }] 1
          "CD") 1 ≠
      [{ user_name := "AB", desk_number := 1 }] := by
  decide

/-- C2 amended: `add` then `clear_desk_assignment` for the same desk number
restores the store to exactly its prior state (same records, same order)
provided that desk number was not already assigned in the prior store. -/
theorem add_clear_roundtrip (db : List Record) (n : Int)
    (user_name : String) (h : n ∉ get_assigned_desk_numbers db) :
    clear_desk_assignment (add_desk_assignment db n user_name) n = db :=
  clear_add_of_not_assigned db n user_name h

theorem add_clear_roundtrip_witness :
    (1 : Int) ∉ get_assigned_desk_numbers
        [{ user_name := "AB", desk_number := 2 }] ∧
    clear_desk_assignment
        (add_desk_assignment [{ user_name := "AB", desk_number := 2 }] 1
          "CD") 1 =
      [{ user_name := "AB", desk_number := 2 }] :=
  ⟨by decide,
    add_clear_roundtrip [{ user_name := "AB", desk_number := 2 }] 1 "CD"
      (by decide)⟩

/-! ### Claim C3 -/

/-- C3: any desk `random.choice` can return — i.e. any element `c` of the
computed `free_desks` list, the set difference of the pool `1..50` and the
assigned desk numbers — is not in `get_assigned_desk_numbers`; and when
exactly one free desk remains (the list is the singleton `[d]`), the
selection is deterministic: `c` must be that desk. -/
theorem free_desk_selection (db : List Record) (c d : Int)
    (hc : c ∈ free_desks db) :
    c ∉ get_assigned_desk_numbers db ∧ (free_desks db = [d] → c = d) := by
  constructor
  · have hm := List.mem_filter.mp hc
    simpa using hm.2
  · intro hone
    rw [hone] at hc
    simpa using hc

theorem free_desk_selection_witness :
    (50 : Int) ∈ free_desks ((List.range 49).map
        (fun i => { user_name := "", desk_number := (i : Int) + 1 })) ∧
    ((50 : Int) ∉ get_assigned_desk_numbers ((List.range 49).map
        (fun i => { user_name := "", desk_number := (i : Int) + 1 })) ∧
      (free_desks ((List.range 49).map
          (fun i => { user_name := "", desk_number := (i : Int) + 1 })) =
            [50] →
        (50 : Int) = 50)) :=
  ⟨by decide, free_desk_selection _ 50 50 (by decide)⟩

/-! ### Claim C7 -/

/-- C7: in the assign flow, entering a name already present in the store is
rejected: no record is added or removed in that step (the final store is
whatever the remaining prompts produce from the unchanged store), the shown
message carries the desk number currently assigned to that name, and the
handler re-prompts (it continues with the remaining inputs). -/
theorem assign_duplicate_rejected (pick : List Int → Int)
    (db : List Record) (user_name : String) (rest : List String)
    (hcap : (get_assigned_desk_numbers db).length < DESK_POOL)
    (h2 : 2 ≤ user_name.length) (h17 : user_name.length ≤ 17)
    (hdup : user_name ∈ get_assigned_user_names db) :
    assign_desk pick db (user_name :: rest) =
      ((assign_loop pick db rest).1,
        Msg.duplicateUser user_name (get_desk_number db user_name) ::
          (assign_loop pick db rest).2) := by
  rw [assign_desk, if_neg (by omega)]
  simp only [assign_loop]
  rw [if_neg (by omega), if_neg (by omega), if_neg (by omega), if_pos hdup]

theorem assign_duplicate_rejected_witness :
    ((get_assigned_desk_numbers
        [{ user_name := "Alice", desk_number := 7 }]).length < DESK_POOL ∧
      2 ≤ "Alice".length ∧ "Alice".length ≤ 17 ∧
      "Alice" ∈ get_assigned_user_names
        [{ user_name := "Alice", desk_number := 7 }]) ∧
    assign_desk (fun l => l.headD 0)
        [{ user_name := "Alice", desk_number := 7 }] ["Alice"] =
      ((assign_loop (fun l => l.headD 0)
          [{ user_name := "Alice", desk_number := 7 }] []).1,
        Msg.duplicateUser "Alice"
            (get_desk_number [{ user_name := "Alice", desk_number := 7 }]
              "Alice") ::
          (assign_loop (fun l => l.headD 0)
            [{ user_name := "Alice", desk_number := 7 }] []).2) :=
  ⟨by decide,
    assign_duplicate_rejected (fun l => l.headD 0)
      [{ user_name := "Alice", desk_number := 7 }] "Alice" [] (by decide)
      (by decide) (by decide) (by decide)⟩

/-! ### Claim C8 -/

lemma string_length_zero {s : String} (h : s.length = 0) : s = "" := by
  cases s with
  | mk data =>
    cases data with
    | nil => rfl
    | cons c cs => simp [String.length] at h

lemma toNat?_length_ne_zero {s : String} {n : Nat}
    (h : s.toNat? = some n) : s.length ≠ 0 := by
  intro h0
  rw [string_length_zero h0] at h
  have hnone : ("" : String).toNat? = none := rfl
  rw [hnone] at h
  cases h

/-- C8: the clear flow on a nonempty store.  Empty input cancels back to
the menu with the store unchanged; input that is not a digit string, or
parses to a number outside 1..50, shows the range message and re-prompts
with the store unchanged; an in-range number not currently assigned shows
the not-assigned message naming it and re-prompts with the store unchanged;
an assigned number removes exactly the records of that desk (under the
uniqueness invariant, exactly that one record, the others kept in order)
and confirms. -/
theorem clear_flow (db : List Record) (rest : List String) (s : String)
    (n : Nat) (hne : ¬(get_assigned_desk_numbers db).length = 0) :
    (clear_desk db ("" :: rest) = (db, [])) ∧
    (s.length ≠ 0 → s.toNat? = none →
      clear_desk db (s :: rest) =
        ((clear_loop db rest).1,
          Msg.deskRange :: (clear_loop db rest).2)) ∧
    (s.toNat? = some n → ¬(1 ≤ n ∧ n ≤ DESK_POOL) →
      clear_desk db (s :: rest) =
        ((clear_loop db rest).1,
          Msg.deskRange :: (clear_loop db rest).2)) ∧
    (s.toNat? = some n → 1 ≤ n ∧ n ≤ DESK_POOL →
      (n : Int) ∉ get_assigned_desk_numbers db →
      clear_desk db (s :: rest) =
        ((clear_loop db rest).1,
          Msg.notAssigned (n : Int) :: (clear_loop db rest).2)) ∧
    (s.toNat? = some n → 1 ≤ n ∧ n ≤ DESK_POOL →
      (n : Int) ∈ get_assigned_desk_numbers db →
      (get_assigned_desk_numbers db).Nodup →
      clear_desk db (s :: rest) =
        (db.filter (fun r => decide (r.desk_number ≠ (n : Int))),
          [Msg.cleared (n : Int)])) := by
  refine ⟨?_, ?_, ?_, ?_, ?_⟩
  · rw [clear_desk, if_neg hne]
    simp only [clear_loop]
    rw [if_pos String.length_empty]
  · intro hs0 hsn
    rw [clear_desk, if_neg hne]
    simp only [clear_loop]
    rw [if_neg hs0, hsn]
  · intro hsn hrange
    rw [clear_desk, if_neg hne]
    simp only [clear_loop]
    rw [if_neg (toNat?_length_ne_zero hsn), hsn]
    simp only []
    rw [if_pos hrange]
  · intro hsn hrange hmem
    rw [clear_desk, if_neg hne]
    simp only [clear_loop]
    rw [if_neg (toNat?_length_ne_zero hsn), hsn]
    simp only []
    rw [if_neg (by simpa using hrange), if_pos hmem]
  · intro hsn hrange hmem hnd
    rw [clear_desk, if_neg hne]
    simp only [clear_loop]
    rw [if_neg (toNat?_length_ne_zero hsn), hsn]
    simp only []
    rw [if_neg (by simpa using hrange), if_neg (by simpa using hmem)]
    rw [clear_desk_assignment_eq_filter db (n : Int) hnd]

theorem clear_flow_witness :
    ¬(get_assigned_desk_numbers [{ user_name := "Bob", desk_number := 5 },
        { user_name := "Al", desk_number := 7 }]).length = 0 ∧
    ((clear_desk [{ user_name := "Bob", desk_number := 5 },
        { user_name := "Al", desk_number := 7 }] ("" :: []) =
      ([{ user_name := "Bob", desk_number := 5 },
        { user_name := "Al", desk_number := 7 }], [])) ∧
    ("5".length ≠ 0 → "5".toNat? = none →
      clear_desk [{ user_name := "Bob", desk_number := 5 },
          { user_name := "Al", desk_number := 7 }] ("5" :: []) =
        ((clear_loop [{ user_name := "Bob", desk_number := 5 },
            { user_name := "Al", desk_number := 7 }] []).1,
          Msg.deskRange :: (clear_loop
            [{ user_name := "Bob", desk_number := 5 },
              { user_name := "Al", desk_number := 7 }] []).2)) ∧
    ("5".toNat? = some 5 → ¬(1 ≤ 5 ∧ 5 ≤ DESK_POOL) →
      clear_desk [{ user_name := "Bob", desk_number := 5 },
          { user_name := "Al", desk_number := 7 }] ("5" :: []) =
        ((clear_loop [{ user_name := "Bob", desk_number := 5 },
            { user_name := "Al", desk_number := 7 }] []).1,
          Msg.deskRange :: (clear_loop
            [{ user_name := "Bob", desk_number := 5 },
              { user_name := "Al", desk_number := 7 }] []).2)) ∧
    ("5".toNat? = some 5 → 1 ≤ 5 ∧ 5 ≤ DESK_POOL →
      ((5 : Nat) : Int) ∉ get_assigned_desk_numbers
        [{ user_name := "Bob", desk_number := 5 },
          { user_name := "Al", desk_number := 7 }] →
      clear_desk [{ user_name := "Bob", desk_number := 5 },
          { user_name := "Al", desk_number := 7 }] ("5" :: []) =
        ((clear_loop [{ user_name := "Bob", desk_number := 5 },
            { user_name := "Al", desk_number := 7 }] []).1,
          Msg.notAssigned ((5 : Nat) : Int) :: (clear_loop
            [{ user_name := "Bob", desk_number := 5 },
              { user_name := "Al", desk_number := 7 }] []).2)) ∧
    ("5".toNat? = some 5 → 1 ≤ 5 ∧ 5 ≤ DESK_POOL →
      ((5 : Nat) : Int) ∈ get_assigned_desk_numbers
        [{ user_name := "Bob", desk_number := 5 },
          { user_name := "Al", desk_number := 7 }] →
      (get_assigned_desk_numbers [{ user_name := "Bob", desk_number := 5 },
        { user_name := "Al", desk_number := 7 }]).Nodup →
      clear_desk [{ user_name := "Bob", desk_number := 5 },
          { user_name := "Al", desk_number := 7 }] ("5" :: []) =
        ([{ user_name := "Bob", desk_number := 5 },
            { user_name := "Al", desk_number := 7 }].filter
            (fun r => decide (r.desk_number ≠ ((5 : Nat) : Int))),
          [Msg.cleared ((5 : Nat) : Int)]))) :=
  ⟨by decide,
    clear_flow [{ user_name := "Bob", desk_number := 5 },
      { user_name := "Al", desk_number := 7 }] [] "5" 5 (by decide)⟩

/-! ### Claim C9 -/

lemma free_desks_ne_nil (db : List Record)
    (h : (get_assigned_desk_numbers db).length < DESK_POOL) :
    free_desks db ≠ [] := by
  intro hnil
  have hsub : all_desks ⊆ get_assigned_desk_numbers db := by
    intro d hd
    have hf := List.filter_eq_nil_iff.mp hnil d hd
    simpa using hf
  have hnd : all_desks.Nodup := by decide
  have hlen : all_desks.length ≤ (get_assigned_desk_numbers db).length :=
    (List.subperm_of_subset hnd hsub).length_le
  have h50 : all_desks.length = 50 := by decide
  have hdp : DESK_POOL = 50 := rfl
  omega

lemma mem_free_desks_not_assigned {db : List Record} {d : Int}
    (hd : d ∈ free_desks db) : d ∉ get_assigned_desk_numbers db := by
  have hm := List.mem_filter.mp hd
  simpa using hm.2

lemma assign_loop_inv (pick : List Int → Int) (db : List Record)
    (hpick : free_desks db ≠ [] → pick (free_desks db) ∈ free_desks db)
    (hinv : Inv db)
    (hlen : (get_assigned_desk_numbers db).length < DESK_POOL) :
    ∀ inputs : List String, Inv (assign_loop pick db inputs).1 := by
  intro inputs
  induction inputs with
  | nil => exact hinv
  | cons user_name rest ih =>
    simp only [assign_loop]
    split
    · exact hinv
    · split
      · exact ih
      · split
        · exact ih
        · split
          · exact ih
          · rename_i hn0 hs hl17 hdup
            have hd := hpick (free_desks_ne_nil db hlen)
            have hdna := mem_free_desks_not_assigned hd
            obtain ⟨hnd, hnu, hlinv⟩ := hinv
            refine ⟨?_, ?_, ?_⟩
            · simp only [add_desk_assignment, get_assigned_desk_numbers,
                List.map_append, List.map_cons, List.map_nil]
              rw [List.nodup_append]
              refine ⟨hnd, List.nodup_singleton _, ?_⟩
              intro a ha hb
              have hab : a = pick (free_desks db) := by simpa using hb
              rw [hab] at ha
              exact hdna ha
            · simp only [add_desk_assignment, get_assigned_user_names,
                List.map_append, List.map_cons, List.map_nil]
              rw [List.nodup_append]
              refine ⟨hnu, List.nodup_singleton _, ?_⟩
              intro a ha hb
              have hab : a = user_name := by simpa using hb
              rw [hab] at ha
              exact hdup ha
            · have hmap : (get_assigned_desk_numbers db).length =
                  db.length := by
                simp [get_assigned_desk_numbers]
              simp only [add_desk_assignment, List.length_append,
                List.length_cons, List.length_nil]
              omega

lemma clear_loop_fst_sublist (db : List Record) :
    ∀ inputs : List String, List.Sublist (clear_loop db inputs).1 db := by
  intro inputs
  induction inputs with
  | nil => exact List.Sublist.refl db
  | cons s rest ih =>
    simp only [clear_loop]
    split
    · exact List.Sublist.refl db
    · split
      · exact ih
      · split
        · exact ih
        · split
          · exact ih
          · exact clear_desk_assignment_sublist db _

lemma inv_of_sublist {db₁ db₂ : List Record}
    (h : List.Sublist db₁ db₂) (hinv : Inv db₂) : Inv db₁ := by
  obtain ⟨hnd, hnu, hl⟩ := hinv
  exact ⟨hnd.sublist (h.map _), hnu.sublist (h.map _),
    le_trans h.length_le hl⟩

/-- C9: starting from a store satisfying the data-model invariant (desk
numbers unique, user names unique, at most 50 records), both the assign
flow and the clear flow, run on any input sequences, leave a store that
again satisfies the invariant.  `pick` only has to return an element of
the free list it is given, as `random.choice` does. -/
theorem flows_preserve_inv (pick : List Int → Int) (db : List Record)
    (names inputs : List String)
    (hpick : free_desks db ≠ [] → pick (free_desks db) ∈ free_desks db)
    (hinv : Inv db) :
    Inv (assign_desk pick db names).1 ∧ Inv (clear_desk db inputs).1 := by
  constructor
  · rw [assign_desk]
    split
    · exact hinv
    · rename_i hcap
      exact assign_loop_inv pick db hpick hinv (by omega) names
  · rw [clear_desk]
    split
    · exact hinv
    · exact inv_of_sublist (clear_loop_fst_sublist db inputs) hinv

theorem flows_preserve_inv_witness :
    ((free_desks [{ user_name := "AB", desk_number := 1 }] ≠ [] →
        (2 : Int) ∈ free_desks [{ user_name := "AB", desk_number := 1 }]) ∧
      Inv [{ user_name := "AB", desk_number := 1 }]) ∧
    (Inv (assign_desk (fun _ => (2 : Int))
        [{ user_name := "AB", desk_number := 1 }] ["CD"]).1 ∧
      Inv (clear_desk [{ user_name := "AB", desk_number := 1 }] ["1"]).1) :=
  ⟨⟨by decide, ⟨by decide, by decide, by decide⟩⟩,
    flows_preserve_inv (fun _ => (2 : Int))
      [{ user_name := "AB", desk_number := 1 }] ["CD"] ["1"] (by decide)
      ⟨by decide, by decide, by decide⟩⟩

/-! ### Claim C5 -/

/-- C5: a missing or unreadable file (`IOError`) and a malformed document
(`JSONDecodeError`) both make `read_database_file` catch the exception and
report failure, leaving `database` untouched — in particular empty at
startup, where it is the empty list it was initialised to.  The embedded
function is total, so the failure is never fatal, and `main` neither checks
the returned flag nor shows any message before entering the menu loop. -/
theorem load_failure (db : List Record) :
    read_database_file [] FileReadResult.ioError = (false, []) ∧
    read_database_file [] FileReadResult.malformed = (false, []) ∧
    read_database_file db FileReadResult.ioError = (false, db) ∧
    read_database_file db FileReadResult.malformed = (false, db) :=
  ⟨rfl, rfl, rfl, rfl⟩

/-! ### Claim C6 -/

lemma decode_encode_record (record : Record) :
    decode_record (encode_record record) = some record := rfl

lemma decode_records_map (db : List Record) :
    decode_records (db.map encode_record) = some db := by
  induction db with
  | nil => rfl
  | cons record rest ih =>
    simp only [List.map_cons, decode_records, decode_encode_record, ih]

/-- C6: saving the store and loading the resulting document reproduces the
records — in fact exactly, same pairs in the same order, which implies the
set-equality the spec promises (the second conjunct), whatever the
in-memory store held before the load. -/
theorem save_load_roundtrip (db prior : List Record) :
    read_database_file prior
        (FileReadResult.ok (write_database_file db)) = (true, db) ∧
    ∀ r : Record,
      r ∈ (read_database_file prior
          (FileReadResult.ok (write_database_file db))).2 ↔ r ∈ db := by
  have h : parse_database (write_database_file db) = some db := by
    simp only [write_database_file, parse_database, decode_records_map]
  constructor
  · simp only [read_database_file, h, Option.getD_some]
  · intro r
    simp only [read_database_file, h, Option.getD_some]

end Dskrnd
